import Mathlib

/-!
Verification development for the RAG-Spotlight repository.

Shallow embedding of the core pure logic of:
* `app/query_filters.py` (natural-language query filter parsing and result filtering),
* `app/manifest_db.py`   (SQLite manifest for incremental indexing),
* `app/llm.py`           (extractive-QA collaborator wrapper),
and, modelled from the specification where the repository source is not
available under `src/`, `app/rag_answerer.py`'s `compress_answer_if_needed`
and `app/vector_store.py`'s `FAISSVectorStore.add`.

Machine reals (Python floats such as `st_mtime` and confidences) are modelled
as rationals; datetimes are modelled either symbolically (for the values
`parse_query` constructs) or as integer timestamps (for the linear-order
comparisons in `apply_filters_to_results`).
-/

namespace RAGSpotlight

/-! ## A small regular-expression engine

`app/query_filters.py` drives all of its parsing through Python `re.search` /
`re.sub` with `re.IGNORECASE`.  The patterns it uses only need: literal
characters, `\b` word boundaries, `\s+`, `\d` / `\d+`, `(?:...)?` options,
alternation, and capturing groups.  We embed exactly those constructs with
Python's backtracking preference order (leftmost match; alternatives tried
left to right; `+` and `?` greedy), so that each Python pattern can be
transliterated into an `RE` term and executed. -/

/-- Python's `\s` class (ASCII range): space, tab, newline, carriage return,
vertical tab, form feed. -/
def pyIsSpace (c : Char) : Bool :=
  c = ' ' || c = '\t' || c = '\n' || c = '\r' || c = Char.ofNat 11 || c = Char.ofNat 12

/-- Python's `\w` class restricted to ASCII: letters, digits, underscore. -/
def pyIsWordChar (c : Char) : Bool :=
  c.isAlphanum || c = '_'

/-- Regular-expression constructs used by `app/query_filters.py`.
`ch` matches case-insensitively (all searches/substitutions in the source are
on lowercased text or carry `re.IGNORECASE`). -/
inductive RE where
  | eps : RE
  | ch (c : Char) : RE
  | seq (a b : RE) : RE
  | alt (a b : RE) : RE
  | opt (a : RE) : RE
  | wsPlus : RE
  | digit : RE
  | digPlus : RE
  | wb : RE
  | grp (a : RE) : RE
deriving Repr

/-- A matcher state: the character just before the remaining input (needed for
`\b`), the remaining input, and the captures completed so far. -/
abbrev MState := Option Char × List Char × List (List Char)

/-- All splits of `l` obtained by consuming one or more characters satisfying
`p`, longest first (greedy `+`), each with the last consumed character. -/
def greedyRuns (p : Char → Bool) : List Char → List (Option Char × List Char)
  | [] => []
  | c :: t => if p c then greedyRuns p t ++ [(some c, t)] else []

/-- Run a pattern at the current position.  Returns the list of possible
successor states in Python's backtracking preference order (alternation left
first, `+` and `?` greedy; the head is the match Python commits to). -/
def mrun : RE → Option Char → List Char → List MState
  | .eps, prev, l => [(prev, l, [])]
  | .ch c, _, l =>
    match l with
    | [] => []
    | x :: t => if x.toLower = c.toLower then [(some x, t, [])] else []
  | .seq a b, prev, l =>
    (mrun a prev l).flatMap (fun s =>
      (mrun b s.1 s.2.1).map (fun s₂ => (s₂.1, s₂.2.1, s.2.2 ++ s₂.2.2)))
  | .alt a b, prev, l => mrun a prev l ++ mrun b prev l
  | .opt a, prev, l => mrun a prev l ++ [(prev, l, [])]
  | .wsPlus, _, l => (greedyRuns pyIsSpace l).map (fun s => (s.1, s.2, []))
  | .digit, _, l =>
    match l with
    | [] => []
    | x :: t => if x.isDigit then [(some x, t, [])] else []
  | .digPlus, _, l => (greedyRuns Char.isDigit l).map (fun s => (s.1, s.2, []))
  | .wb, prev, l =>
    let pw := (prev.map pyIsWordChar).getD false
    let nw := (l.head?.map pyIsWordChar).getD false
    if pw ≠ nw then [(prev, l, [])] else []
  | .grp a, prev, l =>
    (mrun a prev l).map (fun s =>
      (s.1, s.2.1, s.2.2 ++ [l.take (l.length - s.2.1.length)]))

/-- Try to match a pattern exactly at the current position; on success return
the preferred match's final state. -/
def matchAt (r : RE) (prev : Option Char) (l : List Char) : Option MState :=
  (mrun r prev l).head?

/-- Embeds `re.search`: leftmost match (Python's preferred match at the leftmost
matching position). `prev` is the character before the current position. -/
def searchFrom (r : RE) (prev : Option Char) (l : List Char) : Option MState :=
  match matchAt r prev l with
  | some s => some s
  | none =>
    match l with
    | [] => none
    | c :: t => searchFrom r (some c) t
termination_by structural l

/-- Embeds `re.sub(pattern, "", s)`: remove every non-overlapping match, scanning left
to right and continuing after each match (word boundaries are judged against
the original surrounding characters, as Python does).  A (here impossible)
zero-width match keeps the character and advances. -/
def subAllF (r : RE) : Nat → Option Char → List Char → List Char
  | 0, _, l => l
  | fuel + 1, prev, l =>
    match matchAt r prev l with
    | some s =>
      if s.2.1.length < l.length then subAllF r fuel s.1 s.2.1
      else
        match l with
        | [] => []
        | c :: t => c :: subAllF r fuel (some c) t
    | none =>
      match l with
      | [] => []
      | c :: t => c :: subAllF r fuel (some c) t

/-- Each `subAllF` step strictly shortens the text, so `length + 1` fuel is
always enough (when the fuel runs out the text is already empty). -/
def subAll (r : RE) (prev : Option Char) (l : List Char) : List Char :=
  subAllF r (l.length + 1) prev l

/-- Search a pattern in a string (as `re.search(pattern, s)`), returning the
captures of the preferred match, or `none` when there is no match. -/
def reSearch (r : RE) (s : String) : Option (List String) :=
  (searchFrom r none s.toList).map (fun st => st.2.2.map (fun c => String.mk c))

/-- Substitute all matches of a pattern by the empty string (as
`re.sub(pattern, "", s, flags=re.IGNORECASE)`). -/
def reSub (r : RE) (s : String) : String :=
  String.mk (subAll r none s.toList)

/-- Literal string pattern (each character matched case-insensitively). -/
def rstr (s : String) : RE :=
  s.toList.foldr (fun c acc => .seq (.ch c) acc) .eps

/-- Right-nested sequencing of a list of patterns. -/
def rcat (l : List RE) : RE :=
  l.foldr .seq .eps

/-- Right-nested alternation (Python tries alternatives left to right). -/
def ralt : List RE → RE
  | [] => .eps
  | [r] => r
  | r :: t => .alt r (ralt t)

/-! ## String helpers mirroring the Python string methods used -/

/-- Python `str.lower()` (ASCII). -/
def pyLower (s : String) : String :=
  String.mk (s.toList.map Char.toLower)

/-- Python `str.upper()` (ASCII). -/
def pyUpper (s : String) : String :=
  String.mk (s.toList.map Char.toUpper)

/-- Python `str.strip()` (ASCII whitespace). -/
def pyStrip (s : String) : String :=
  String.mk (((s.toList.dropWhile pyIsSpace).reverse.dropWhile pyIsSpace).reverse)

/-- Embeds `re.sub(r"\s+", " ", s)`: collapse every whitespace run to a single space.
The flag records whether we are inside a whitespace run already emitted as a
single `' '`. -/
def collapseWsAux : Bool → List Char → List Char
  | _, [] => []
  | inRun, c :: t =>
    if pyIsSpace c then
      if inRun then collapseWsAux true t else ' ' :: collapseWsAux true t
    else c :: collapseWsAux false t

/-- Embeds `re.sub(r"\s+", " ", s)` on strings. -/
def collapseWs (s : String) : String :=
  String.mk (collapseWsAux false s.toList)

/-- Python `str.capitalize()`: first character upper-cased, the rest
lower-cased. -/
def pyCapitalize (s : String) : String :=
  match s.toList with
  | [] => ""
  | c :: t => String.mk (c.toUpper :: t.map Char.toLower)

/-- Python `str.rstrip("s")`: drop every trailing `'s'`. -/
def rstripS (s : String) : String :=
  String.mk ((s.toList.reverse.dropWhile (· = 's')).reverse)

/-- Numeric value of a digit string (used for `int(match.group(n))`). -/
def natOfDigits (s : String) : Nat :=
  s.toList.foldl (fun n c => n * 10 + (c.toNat - 48)) 0

/-- Embeds `list(set(xs))` keeping the first occurrence of each element (Python's set
iteration order is unspecified; downstream code only tests membership in this
list, which is order-independent). -/
def dedupAux : List String → List String → List String
  | _, [] => []
  | seen, x :: t =>
    if seen.contains x then dedupAux seen t else x :: dedupAux (x :: seen) t

/-- See `dedupAux`; `seen` starts empty. -/
def dedupFirst (l : List String) : List String :=
  dedupAux [] l

/-! ## `app/query_filters.py`: data model -/

/-- Symbolic value of the datetime expressions `parse_query` constructs; each
constructor names one expression from `RELATIVE_DATE_PATTERNS` or from the
month/year branches, relative to the `datetime.now()` of the call. -/
inductive DateVal where
  /-- Embeds `datetime.now().replace(hour=0, minute=0, second=0)` -/
  | startOfToday
  /-- Embeds `(datetime.now() - timedelta(days=1)).replace(hour=0, minute=0, second=0)` -/
  | startOfYesterday
  /-- Embeds `datetime.now() - timedelta(days=n)` -/
  | nowMinusDays (n : Nat)
  /-- Embeds `datetime.now() - timedelta(weeks=n)` -/
  | nowMinusWeeks (n : Nat)
  /-- Embeds `datetime.now() - timedelta(days=datetime.now().weekday())` -/
  | nowMinusWeekdayDays
  /-- Embeds `datetime.now().replace(day=1, hour=0, minute=0, second=0)` -/
  | startOfThisMonth
  /-- Embeds `datetime.now().replace(month=1, day=1, hour=0, minute=0, second=0)` -/
  | startOfThisYear
  /-- Embeds `datetime(year, month, 1)` -/
  | calDate (year month : Int)
deriving DecidableEq, Repr

/-- The `QueryFilters` dataclass.  `δ` is the type modelling datetimes (the
symbolic `DateVal` for values built by `parse_query`; an integer timestamp
where only the linear order matters, as in `apply_filters_to_results`). -/
structure QueryFilters (δ : Type) where
  query : String
  file_types : List String := []
  date_from : Option δ := none
  date_to : Option δ := none
  directory : Option String := none
  original_query : String := ""
deriving Repr, DecidableEq

/-- Embeds `QueryFilters.has_filters`; `bool(...)` truthiness makes an empty-string
directory inactive, hence the `d ≠ ""` on that disjunct. -/
def QueryFilters.has_filters {δ : Type} (f : QueryFilters δ) : Bool :=
  f.file_types ≠ [] || f.date_from.isSome || f.date_to.isSome ||
    (match f.directory with | some d => d ≠ "" | none => false)

/-! ## `app/query_filters.py`: the pattern tables -/

/-- Embeds `FILE_TYPE_PATTERNS`, in source order. -/
def FILE_TYPE_PATTERNS : List (RE × List String) :=
  [ (rcat [.wb, rstr "pdf", .opt (.ch 's'), .wb], [".pdf"]),
    (rcat [.wb, rstr "document", .opt (.ch 's'), .wb], [".pdf", ".docx", ".doc"]),
    (rcat [.wb, rstr "word", .wb], [".docx", ".doc"]),
    (rcat [.wb, rstr "doc", .opt (.ch 'x'), .wb], [".docx", ".doc"]),
    (rcat [.wb, rstr "excel", .wb], [".xlsx", ".xls", ".csv"]),
    (rcat [.wb, rstr "spreadsheet", .opt (.ch 's'), .wb], [".xlsx", ".xls", ".csv"]),
    (rcat [.wb, rstr "csv", .wb], [".csv"]),
    (rcat [.wb, rstr "xls", .opt (.ch 'x'), .wb], [".xlsx", ".xls"]),
    (rcat [.wb, rstr "text file", .opt (.ch 's'), .wb], [".txt", ".md"]),
    (rcat [.wb, rstr "txt", .wb], [".txt"]),
    (rcat [.wb, rstr "markdown", .wb], [".md"]),
    (rcat [.wb, rstr "image", .opt (.ch 's'), .wb], [".jpg", ".jpeg", ".png", ".gif", ".webp"]),
    (rcat [.wb, rstr "photo", .opt (.ch 's'), .wb], [".jpg", ".jpeg", ".png"]),
    (rcat [.wb, .ch 'j', .ch 'p', .opt (.ch 'e'), .ch 'g', .wb], [".jpg", ".jpeg"]),
    (rcat [.wb, rstr "png", .wb], [".png"]) ]

/-- Embeds `RELATIVE_DATE_PATTERNS`, in source order; each entry pairs the pattern
with the date computation of its lambda, fed the captured groups. -/
def RELATIVE_DATE_PATTERNS : List (RE × (List String → Option DateVal × Option DateVal)) :=
  [ (rcat [.wb, rstr "today", .wb], fun _ => (some .startOfToday, none)),
    (rcat [.wb, rstr "yesterday", .wb], fun _ => (some .startOfYesterday, some .startOfToday)),
    (rcat [.wb, rstr "last", .wsPlus, rstr "week", .wb], fun _ => (some (.nowMinusWeeks 1), none)),
    (rcat [.wb, rstr "this", .wsPlus, rstr "week", .wb], fun _ => (some .nowMinusWeekdayDays, none)),
    (rcat [.wb, rstr "last", .wsPlus, rstr "month", .wb], fun _ => (some (.nowMinusDays 30), none)),
    (rcat [.wb, rstr "this", .wsPlus, rstr "month", .wb], fun _ => (some .startOfThisMonth, none)),
    (rcat [.wb, rstr "last", .wsPlus, rstr "year", .wb], fun _ => (some (.nowMinusDays 365), none)),
    (rcat [.wb, rstr "this", .wsPlus, rstr "year", .wb], fun _ => (some .startOfThisYear, none)),
    (rcat [.wb, rstr "last", .wsPlus, .grp .digPlus, .wsPlus, rstr "day", .opt (.ch 's'), .wb],
      fun caps => (some (.nowMinusDays (natOfDigits (caps.getD 0 ""))), none)),
    (rcat [.wb, rstr "last", .wsPlus, .grp .digPlus, .wsPlus, rstr "week", .opt (.ch 's'), .wb],
      fun caps => (some (.nowMinusWeeks (natOfDigits (caps.getD 0 ""))), none)),
    (rcat [.wb, rstr "last", .wsPlus, .grp .digPlus, .wsPlus, rstr "month", .opt (.ch 's'), .wb],
      fun caps => (some (.nowMinusDays (natOfDigits (caps.getD 0 "") * 30)), none)) ]

/-- The `MONTHS` name→number table. -/
def MONTHS : List (String × Int) :=
  [ ("january", 1), ("jan", 1), ("february", 2), ("feb", 2), ("march", 3),
    ("mar", 3), ("april", 4), ("apr", 4), ("may", 5), ("june", 6), ("jun", 6),
    ("july", 7), ("jul", 7), ("august", 8), ("aug", 8), ("september", 9),
    ("sep", 9), ("sept", 9), ("october", 10), ("oct", 10), ("november", 11),
    ("nov", 11), ("december", 12), ("dec", 12) ]

/-- Embeds `MONTHS.get(month_name, 1)`. -/
def monthNum (s : String) : Int :=
  ((MONTHS.find? (fun p => p.1 = s)).map (fun p => p.2)).getD 1

/-- The month-name pattern
`\b(in|from|during)\s+(january|...|december)(?:\s+(\d{4}))?\b`. -/
def month_pattern : RE :=
  rcat [.wb, .grp (ralt [rstr "in", rstr "from", rstr "during"]), .wsPlus,
    .grp (ralt [rstr "january", rstr "february", rstr "march", rstr "april",
      rstr "may", rstr "june", rstr "july", rstr "august", rstr "september",
      rstr "october", rstr "november", rstr "december"]),
    .opt (rcat [.wsPlus, .grp (rcat [.digit, .digit, .digit, .digit])]), .wb]

/-- The bare-year pattern `\b(?:from|in)\s+(\d{4})\b`. -/
def year_pattern : RE :=
  rcat [.wb, ralt [rstr "from", rstr "in"], .wsPlus,
    .grp (rcat [.digit, .digit, .digit, .digit]), .wb]

/-- The directory pattern
`\b(?:in|from)\s+(?:my\s+)?(documents?|desktop|downloads?|pictures?)\b`. -/
def dir_pattern : RE :=
  rcat [.wb, ralt [rstr "in", rstr "from"], .wsPlus,
    .opt (.seq (rstr "my") .wsPlus),
    .grp (ralt [.seq (rstr "document") (.opt (.ch 's')), rstr "desktop",
      .seq (rstr "download") (.opt (.ch 's')),
      .seq (rstr "picture") (.opt (.ch 's'))]), .wb]

/-- Canonical folder name: `match.group(1).rstrip("s").capitalize()` followed
by the irregular-plural fixups. -/
def canonFolder (folder : String) : String :=
  let f := pyCapitalize (rstripS folder)
  if f = "Document" then "Documents"
  else if f = "Download" then "Downloads"
  else if f = "Picture" then "Pictures"
  else f

/-- The dangling connective words removed at the very end of `parse_query`
(`re.sub(r"^\s*(from|in|modified|created|during|since)\s*$", "", query)`:
since the text was just whitespace-collapsed and stripped, the anchored
pattern matches exactly when the whole remaining text is one of the words). -/
def danglingWords : List String :=
  ["from", "in", "modified", "created", "during", "since"]

/-! ## `parse_query` -/

/-- Embeds `parse_query`.  `nowYear` stands for `datetime.now().year` (used only by
the month branch when the year is omitted).  Note the source computes
`query_lower` once and searches every pattern against that original lowercased
text, while the substitutions run on the evolving `query`; this embedding
mirrors that exactly. -/
def parse_query (nowYear : Int) (query : String) : QueryFilters DateVal :=
  let original := query
  let queryLower := pyLower query
  -- file types: every matching pattern contributes and is stripped
  let step := FILE_TYPE_PATTERNS.foldl
    (fun (st : List String × String) pe =>
      if (reSearch pe.1 queryLower).isSome then (st.1 ++ pe.2, reSub pe.1 st.2)
      else st)
    ([], query)
  let file_types := dedupFirst step.1
  let query1 := step.2
  -- relative dates: the first matching pattern wins (`break`)
  let relHit := RELATIVE_DATE_PATTERNS.findSome?
    (fun pf => (reSearch pf.1 queryLower).map (fun caps => (pf.1, pf.2 caps)))
  let afterRel : String × Option DateVal × Option DateVal :=
    match relHit with
    | some (pat, df, dt) => (reSub pat query1, df, dt)
    | none => (query1, none, none)
  let query2 := afterRel.1
  let dF1 := afterRel.2.1
  let dT1 := afterRel.2.2
  -- month name with optional year (`if match and not date_from`)
  let afterMonth : String × Option DateVal × Option DateVal :=
    match reSearch month_pattern queryLower, dF1 with
    | some caps, none =>
      let monthName := caps.getD 1 ""
      let year : Int :=
        match caps.getD 2 "" with
        | "" => nowYear
        | y => Int.ofNat (natOfDigits y)
      let month := monthNum monthName
      let dfrom := DateVal.calDate year month
      let dto := if month = 12 then DateVal.calDate (year + 1) 1
                 else DateVal.calDate year (month + 1)
      (reSub month_pattern query2, some dfrom, some dto)
    | _, _ => (query2, dF1, dT1)
  let query3 := afterMonth.1
  let dF2 := afterMonth.2.1
  let dT2 := afterMonth.2.2
  -- bare year (`if match and not date_from`)
  let afterYear : String × Option DateVal × Option DateVal :=
    match reSearch year_pattern queryLower, dF2 with
    | some caps, none =>
      let year := Int.ofNat (natOfDigits (caps.getD 0 ""))
      (reSub year_pattern query3, some (.calDate year 1), some (.calDate (year + 1) 1))
    | _, _ => (query3, dF2, dT2)
  let query4 := afterYear.1
  let dF3 := afterYear.2.1
  let dT3 := afterYear.2.2
  -- directory
  let afterDir : String × Option String :=
    match reSearch dir_pattern queryLower with
    | some caps =>
      (reSub dir_pattern query4, some ("~/" ++ canonFolder (caps.getD 0 "")))
    | none => (query4, none)
  let query5 := afterDir.1
  let directory := afterDir.2
  -- cleanup
  let query6 := pyStrip (collapseWs query5)
  let query7 := if danglingWords.contains (pyLower query6) then "" else query6
  let query8 := pyStrip query7
  { query := query8, file_types := file_types, date_from := dF3,
    date_to := dT3, directory := directory, original_query := original }

/-! ## `apply_filters_to_results`

Here datetimes are integer timestamps: the source only ever compares them
(`doc_date < filters.date_from`, `doc_date >= filters.date_to`), so any
linearly ordered embedding of `datetime` is faithful. -/

/-- What `result.get("indexed_at")` yields for a search result: absent (or
falsy), present but unparseable by `datetime.fromisoformat`, or parsed to a
timestamp. -/
inductive IndexedAtVal where
  | missing
  | unparsedRaw
  | at (t : Int)
deriving Repr, DecidableEq

/-- A search-result row as consumed by `apply_filters_to_results` (defaults
mirror `result.get("filename", "")` / `result.get("filepath", "")`). -/
structure SearchResultR where
  filename : String := ""
  filepath : String := ""
  indexed_at : IndexedAtVal := .missing
deriving Repr, DecidableEq

/-- Embeds `"." + result.get("filename", "").split(".")[-1].lower()`: the last
`'.'`-separated segment is exactly the suffix after the last `'.'` (the whole
name when it contains no dot). -/
def extOfFilename (filename : String) : String :=
  "." ++ pyLower (String.mk ((filename.toList.reverse.takeWhile (· ≠ '.')).reverse))

/-- Embeds `os.path.expanduser`: a leading `"~"` is replaced by the home directory
(`~user` forms and trailing-slash niceties are not used by this code). -/
def expanduser (home p : String) : String :=
  if p = "~" then home
  else if p.startsWith "~/" then home ++ p.drop 1
  else p

/-- The body of the result loop: `True` exactly when none of the three
`continue` branches fires for this result. -/
def resultPasses (filters : QueryFilters Int) (home : String) (r : SearchResultR) : Bool :=
  -- file-type check
  (if filters.file_types ≠ [] then
    decide (extOfFilename r.filename ∈ filters.file_types)
   else true) &&
  -- date-range check (skipped when no bound is set; parse failures pass)
  (if filters.date_from.isSome || filters.date_to.isSome then
    match r.indexed_at with
    | .at t =>
      !(match filters.date_from with | some df => decide (t < df) | none => false) &&
      !(match filters.date_to with | some dt => decide (dt ≤ t) | none => false)
    | _ => true
   else true) &&
  -- directory check (`if filters.directory:` truthiness)
  (match filters.directory with
   | some d => if d ≠ "" then r.filepath.startsWith (expanduser home d) else true
   | none => true)

/-- Embeds `apply_filters_to_results(results, filters)`; `home` abstracts the user's
home directory consulted by `os.path.expanduser`. -/
def apply_filters_to_results (results : List SearchResultR)
    (filters : QueryFilters Int) (home : String) : List SearchResultR :=
  if !filters.has_filters then results
  else results.filter (resultPasses filters home)

/-- The claim's rejection predicate, as worded in the specification: a result
is rejected iff its extension is outside a non-empty file-type set, or its
parsed timestamp falls outside the half-open interval `[date_from, date_to)`,
or its filepath does not start with the expanded directory prefix. -/
def claimRejects (filters : QueryFilters Int) (home : String) (r : SearchResultR) : Bool :=
  (filters.file_types ≠ [] && decide (extOfFilename r.filename ∉ filters.file_types)) ||
  (match r.indexed_at with
   | .at t =>
     (match filters.date_from with | some df => decide (t < df) | none => false) ||
     (match filters.date_to with | some dt => decide (dt ≤ t) | none => false)
   | _ => false) ||
  (match filters.directory with
   | some d => d ≠ "" && !(r.filepath.startsWith (expanduser home d))
   | none => false)

/-! ## `app/manifest_db.py`: the SQLite manifest

The `files` table is modelled as an association list keyed by `filepath`
(`filepath TEXT PRIMARY KEY` keeps keys unique; `INSERT OR REPLACE` is the
`upsert` below).  Nullable SQL columns are `Option` fields.  The filesystem is
a map from path to a stat record; the MD5 content hash is deterministic in the
file's bytes, so it is carried as part of the file's state (`contentHash`). -/

/-- The observable state of a file on disk: `st_mtime`, `st_size`, and the MD5
digest of its bytes. -/
structure Stat where
  mtime : Rat
  size : Int
  contentHash : String
deriving Repr, DecidableEq

/-- A filesystem: `none` means the path does not exist (or `stat` raises
`OSError`). -/
abbrev FS := String → Option Stat

/-- A row of the `files` table. -/
structure FileRecord where
  filename : String
  file_hash : Option String := none
  mtime : Option Rat := none
  size : Option Int := none
  indexed_at : Option String := none
  chunk_count : Option Int := none
deriving Repr, DecidableEq

/-- The `files` table. -/
abbrev Manifest := List (String × FileRecord)

/-- Embeds `get_file`: O(1) lookup by exact path. -/
def getFile (m : Manifest) (p : String) : Option FileRecord :=
  (m.find? (fun q => q.1 = p)).map (fun q => q.2)

/-- Embeds `INSERT OR REPLACE` keyed by `filepath`. -/
def upsert (m : Manifest) (p : String) (r : FileRecord) : Manifest :=
  if m.any (fun q => q.1 = p) then
    m.map (fun q => if q.1 = p then (p, r) else q)
  else m ++ [(p, r)]

/-- Embeds `compute_file_hash`: MD5 of the file's bytes; `""` when the file cannot be
read. -/
def compute_file_hash (fs : FS) (p : String) : String :=
  match fs p with
  | some st => st.contentHash
  | none => ""

/-- Embeds `Path(p).name`: the final path component (paths with a trailing slash are
not used by this code). -/
def pathName (p : String) : String :=
  String.mk ((p.toList.reverse.takeWhile (· ≠ '/')).reverse)

/-- Embeds `needs_indexing`. -/
def needs_indexing (fs : FS) (m : Manifest) (p : String) : Bool :=
  match fs p with
  | none => false
  | some st =>
    match getFile m p with
    | none => true
    | some stored =>
      if some st.mtime ≠ stored.mtime then
        decide (some (compute_file_hash fs p) ≠ stored.file_hash)
      else false

/-- Embeds `mark_indexed`.  `nowIso` stands for `datetime.now().isoformat()`.  A
failing `stat` (`OSError`) is caught: the warning is logged and no row is
written.  `file_hash or self.compute_file_hash(filepath)` recomputes the hash
when the argument is `None` or the empty string (falsy). -/
def mark_indexed (fs : FS) (m : Manifest) (p : String) (chunk_count : Int)
    (file_hash : Option String) (nowIso : String) : Manifest :=
  match fs p with
  | none => m
  | some st =>
    let h := match file_hash with
      | some fh => if fh ≠ "" then fh else compute_file_hash fs p
      | none => compute_file_hash fs p
    upsert m p
      { filename := pathName p, file_hash := some h, mtime := some st.mtime,
        size := some st.size, indexed_at := some nowIso,
        chunk_count := some chunk_count }

/-! ### Extension histogram -/

/-- The grouping key of `get_extension_counts`:
`LOWER(SUBSTR(filename, INSTR(filename, '.')))` for rows passing
`filename LIKE '%.%'` — the lower-cased substring starting at the FIRST `'.'`
of the filename (`none` when the filename has no dot and the row is
excluded). -/
def sqlExt (filename : String) : Option String :=
  if filename.toList.contains '.' then
    some (pyLower (String.mk (filename.toList.dropWhile (· ≠ '.'))))
  else none

/-- Embeds `get_extension_counts`, represented by its counting function: the value
the histogram assigns to extension `e` (the `ORDER BY count DESC` row order is
presentation only). -/
def get_extension_counts (m : Manifest) (e : String) : Nat :=
  (m.filter (fun pr => sqlExt pr.2.filename = some e)).length

/-- The claim's grouping key: the last `'.'`-delimited suffix of the filename
(with its dot), lower-cased; `none` when the filename has no dot. -/
def lastDotExt (filename : String) : Option String :=
  if filename.toList.contains '.' then
    some ("." ++ pyLower (String.mk ((filename.toList.reverse.takeWhile (· ≠ '.')).reverse)))
  else none

/-! ### Export / import -/

/-- One value of the interchange mapping
`path -> {hash, mtime, size, indexed_at, chunk_count}`.  Our exporter always
emits every key, so `none` is JSON `null` (a hand-written structure with a
missing `chunk_count` key, which `info.get("chunk_count", 0)` would default
to `0`, is out of scope of the claims). -/
structure ExportInfo where
  hash : Option String
  mtime : Option Rat
  size : Option Int
  indexed_at : Option String
  chunk_count : Option Int
deriving Repr, DecidableEq

/-- The interchange structure of `export_to_json` / `import_from_json`. -/
structure ExportData where
  files : List (String × ExportInfo)
  last_full_scan : Option String
deriving Repr, DecidableEq

/-- Embeds `export_to_json`.  The source iterates `get_all_files()` (ordered by
`indexed_at DESC`) to build a dict keyed by `filepath`; since keys are unique
the visiting order does not change the mapping, and we keep manifest order.
`lastScan` is the stored `last_full_scan` metadata value. -/
def export_to_json (m : Manifest) (lastScan : Option String) : ExportData :=
  { files := m.map (fun pr =>
      (pr.1, { hash := pr.2.file_hash, mtime := pr.2.mtime, size := pr.2.size,
               indexed_at := pr.2.indexed_at, chunk_count := pr.2.chunk_count })),
    last_full_scan := lastScan }

/-- The row `import_from_json` writes for one entry: `filename` is recomputed
as `Path(filepath).name`. -/
def recordOfInfo (p : String) (i : ExportInfo) : FileRecord :=
  { filename := pathName p, file_hash := i.hash, mtime := i.mtime,
    size := i.size, indexed_at := i.indexed_at, chunk_count := i.chunk_count }

/-- Embeds `import_from_json`: upserts every entry, conditionally overwrites the
`last_full_scan` metadata (only when the imported value is truthy), and
returns the new table, the new metadata value, and the count imported. -/
def manifest_import_from_json (m : Manifest) (lastScan : Option String)
    (d : ExportData) : Manifest × Option String × Nat :=
  let m' := d.files.foldl (fun acc pr => upsert acc pr.1 (recordOfInfo pr.1 pr.2)) m
  let ls' := match d.last_full_scan with
    | some s => if s ≠ "" then some s else lastScan
    | none => lastScan
  (m', ls', d.files.length)

/-- The five interchange fields of a row (everything except `filename`). -/
def recordFields (r : FileRecord) :
    Option String × Option Rat × Option Int × Option String × Option Int :=
  (r.file_hash, r.mtime, r.size, r.indexed_at, r.chunk_count)

/-! ## `app/llm.py`: `extract_answer_from_chunk` -/

/-- Outcome of the collaborator interaction inside the `try:` block of
`extract_answer_from_chunk`: the API call (or response access) raised; the
fence-stripped content was not valid JSON (`json.JSONDecodeError`); or parsing
succeeded, yielding the `answer` value (`result.get("answer", "NONE")`, the
default applying when the key is absent) and the `confidence` as read by
`float(result.get("confidence", 0.0))`.  A non-string `answer` or non-numeric
`confidence` raises inside the same `try:` and behaves like `apiError`. -/
inductive LLMOutcome where
  | apiError
  | badJson
  | parsed (answer : String) (confidence : Rat)
deriving Repr, DecidableEq

/-- The `{"answer": ..., "confidence": ...}` dict the function returns. -/
structure ExtractResult where
  answer : String
  confidence : Rat
deriving Repr, DecidableEq

/-- Embeds `extract_answer_from_chunk`, abstracted over the collaborator outcome.
`clientCached` models the module global `_client` already holding a client;
`keyPresent` models `OPENAI_API_KEY` being set.  `get_client()` runs BEFORE
the protecting `try:`: with no cached client and no key it raises
`RuntimeError`, which propagates to the caller (`Except.error`). -/
def extract_answer_from_chunk (clientCached keyPresent : Bool)
    (outcome : LLMOutcome) : Except String ExtractResult :=
  if !clientCached && !keyPresent then .error "OPENAI_API_KEY not found in .env"
  else .ok (match outcome with
    | .apiError => { answer := "NONE", confidence := 0 }
    | .badJson => { answer := "NONE", confidence := 0 }
    | .parsed answer confidence =>
      if answer = "" || pyUpper answer = "NONE" then
        { answer := "NONE", confidence := 0 }
      else
        { answer := answer, confidence := min (max confidence 0) 1 })

/-! ## `app/rag_answerer.py` (not under `src/`): `compress_answer_if_needed`

Modelled from the spec at the level of word lists: an answer is its
`str.split()` word list (non-empty, whitespace-free tokens), which is the
granularity the contract is stated at. -/

/-- Embeds `rstrip(".,;:")` on one word. -/
def stripTrailingPunct (w : String) : String :=
  String.mk ((w.toList.reverse.dropWhile
    (fun c => c = '.' || c = ',' || c = ';' || c = ':')).reverse)

/-- Normalize the trailing punctuation of a word list to a single period:
strip `".,;:"` characters from the end of the last word and append `"."`
(an empty list, or a last word that was all punctuation, leaves a bare
`"."`). -/
def normalizeEnd : List String → List String
  | [] => ["."]
  | [w] => [stripTrailingPunct w ++ "."]
  | w :: t => w :: normalizeEnd t

/-- Modelled from the spec: `compress_answer_if_needed(answer, max_words)` of
`app/rag_answerer.py`, which is not under `src/` (only its tests are).  Per
spec §4.4: answers at or under the word budget pass through unchanged;
over-budget answers go to the summarization collaborator (modelled by the
`compressed` argument, `none` when the collaborator is unavailable or fails);
if the collaborator is unavailable or its output is not actually shorter, the
result is the deterministic truncation to `maxWords` words with trailing
punctuation normalized to a single period. -/
def compress_answer_if_needed (answer : List String) (maxWords : Nat)
    (compressed : Option (List String)) : List String :=
  if answer.length ≤ maxWords then answer
  else
    match compressed with
    | some c =>
      if c.length < answer.length then c
      else normalizeEnd (answer.take maxWords)
    | none => normalizeEnd (answer.take maxWords)

/-! ## `app/vector_store.py` (not under `src/`): `FAISSVectorStore.add` -/

/-- Modelled from the spec: the FAISS-backed vector store
(`app/vector_store.py` is not under `src/`; only its tests are).  `vectors`
is the similarity index (`index.ntotal = vectors.length`), `metadata` the
positionally aligned metadata list. -/
structure FAISSVectorStore (α : Type) where
  dim : Nat
  vectors : List (List Rat)
  metadata : List α
deriving Repr

/-- Modelled from the spec: `add(vectors, metadataList)` fails with
`ValueError` if the lengths differ or any vector's dimension differs from
`dim`, rejecting before any mutation; on success it appends both lists,
preserving positional correspondence.  The returned pair is the store after
the call and the raised error, if any. -/
def FAISSVectorStore.add {α : Type} (s : FAISSVectorStore α)
    (vs : List (List Rat)) (md : List α) : FAISSVectorStore α × Option String :=
  if vs.length ≠ md.length then
    (s, some "vectors and metadata must have the same length")
  else if ∃ v ∈ vs, v.length ≠ s.dim then
    (s, some "vector dimension does not match index dimension")
  else
    ({ s with vectors := s.vectors ++ vs, metadata := s.metadata ++ md }, none)

/-! ## Helper lemmas about the manifest table -/

/-- The in-place replacement map of `upsert` rewrites the first (and any)
binding of `p` to the fresh row, as seen by `find?`. -/
theorem find?_map_replace_self (t : Manifest) (p : String) (r : FileRecord)
    (h : t.any (fun q => decide (q.1 = p)) = true) :
    (t.map (fun x => if x.1 = p then (p, r) else x)).find?
      (fun x => decide (x.1 = p)) = some (p, r) := by
  induction t with
  | nil => simp at h
  | cons a t ih =>
    by_cases ha : a.1 = p
    · simp [List.find?, if_pos ha]
    · have ht : t.any (fun q => decide (q.1 = p)) = true := by
        simpa [List.any_cons, ha] using h
      simp [List.find?, if_neg ha, ha, ih ht]

/-- The in-place replacement map of `upsert` is invisible to lookups of a
different key. -/
theorem find?_map_replace_other (t : Manifest) (p q : String) (r : FileRecord)
    (hne : q ≠ p) :
    (t.map (fun x => if x.1 = p then (p, r) else x)).find?
      (fun x => decide (x.1 = q)) = t.find? (fun x => decide (x.1 = q)) := by
  induction t with
  | nil => rfl
  | cons a t ih =>
    by_cases ha : a.1 = p
    · have h1 : ¬ a.1 = q := by
        rw [ha]; exact fun hc => hne hc.symm
      have h2 : ¬ (p : String) = q := fun hc => hne hc.symm
      rw [List.map_cons, if_pos ha,
        List.find?_cons_of_neg _ (by simpa using h2),
        List.find?_cons_of_neg _ (by simpa using h1), ih]
    · by_cases haq : a.1 = q
      · rw [List.map_cons, if_neg ha,
          List.find?_cons_of_pos _ (by simpa using haq),
          List.find?_cons_of_pos _ (by simpa using haq)]
      · rw [List.map_cons, if_neg ha,
          List.find?_cons_of_neg _ (by simpa using haq),
          List.find?_cons_of_neg _ (by simpa using haq), ih]

/-- Looking up the upserted path yields the upserted row. -/
theorem getFile_upsert_self (m : Manifest) (p : String) (r : FileRecord) :
    getFile (upsert m p r) p = some r := by
  unfold upsert
  by_cases h : m.any (fun q => decide (q.1 = p)) = true
  · rw [if_pos h]
    unfold getFile
    rw [find?_map_replace_self m p r h]
    rfl
  · rw [if_neg h]
    unfold getFile
    have hnone : m.find? (fun x => decide (x.1 = p)) = none := by
      apply List.find?_eq_none.mpr
      intro x hx hc
      exact h (List.any_eq_true.mpr ⟨x, hx, hc⟩)
    rw [List.find?_append, hnone, Option.none_or,
      List.find?_cons_of_pos _ (by simp)]
    rfl

/-- Looking up a different path is unaffected by an upsert. -/
theorem getFile_upsert_other (m : Manifest) (p q : String) (r : FileRecord)
    (hne : q ≠ p) : getFile (upsert m p r) q = getFile m q := by
  unfold upsert
  by_cases h : m.any (fun x => decide (x.1 = p)) = true
  · rw [if_pos h]
    unfold getFile
    rw [find?_map_replace_other m p q r hne]
  · rw [if_neg h]
    unfold getFile
    rw [List.find?_append]
    have h2 : ([(p, r)].find? (fun x => decide (x.1 = q))) = none := by
      apply List.find?_eq_none.mpr
      intro x hx
      simp only [List.mem_singleton] at hx
      subst hx
      simpa using fun hc => hne hc.symm
    rw [h2]
    cases m.find? (fun x => decide (x.1 = q)) <;> rfl

/-! ## Claim theorems -/

/-- Key-preserving maps commute with keyed lookup. -/
theorem find?_map_keyed (m : Manifest) (g : String × FileRecord → String × FileRecord)
    (hg : ∀ pr, (g pr).1 = pr.1) (p : String) :
    (m.map g).find? (fun x => decide (x.1 = p)) =
      (m.find? (fun x => decide (x.1 = p))).map g := by
  induction m with
  | nil => rfl
  | cons a t ih =>
    by_cases ha : a.1 = p
    · rw [List.map_cons, List.find?_cons_of_pos _ (by simp [hg, ha]),
        List.find?_cons_of_pos _ (by simp [ha])]
      rfl
    · rw [List.map_cons, List.find?_cons_of_neg _ (by simp [hg, ha]),
        List.find?_cons_of_neg _ (by simp [ha]), ih]

/-- Upserting a key that occurs exactly once, at a known position, replaces
that row in place. -/
theorem upsert_append_cons (a tb : Manifest) (p : String) (r₀ r : FileRecord)
    (hp_a : p ∉ a.map Prod.fst) (hp_tb : p ∉ tb.map Prod.fst) :
    upsert (a ++ (p, r₀) :: tb) p r = a ++ (p, r) :: tb := by
  unfold upsert
  have hany : (a ++ (p, r₀) :: tb).any (fun q => decide (q.1 = p)) = true :=
    List.any_eq_true.mpr ⟨(p, r₀), by simp, by simp⟩
  rw [if_pos hany, List.map_append, List.map_cons]
  have hmap : ∀ (u : Manifest), p ∉ u.map Prod.fst →
      u.map (fun q => if q.1 = p then (p, r) else q) = u := by
    intro u hu
    have hpt : ∀ x ∈ u, (if x.1 = p then (p, r) else x) = x := by
      intro x hx
      rw [if_neg (fun hc => hu (List.mem_map.mpr ⟨x, hx, hc⟩))]
    rw [List.map_congr_left hpt, List.map_id']
  rw [hmap a hp_a, hmap tb hp_tb, if_pos rfl]

/-- Folding `import_from_json`'s upserts over entries whose keys are exactly
the keys of the suffix `b` of the table (each key unique) replaces the rows of
`b` in place, one by one. -/
theorem foldl_upsert_aligned (l : List (String × ExportInfo)) :
    ∀ (a b : Manifest), b.map Prod.fst = l.map Prod.fst →
    ((a ++ b).map Prod.fst).Nodup →
    l.foldl (fun acc pr => upsert acc pr.1 (recordOfInfo pr.1 pr.2)) (a ++ b)
      = a ++ l.map (fun pr => (pr.1, recordOfInfo pr.1 pr.2)) := by
  induction l with
  | nil =>
    intro a b hb _
    have : b = [] := List.map_eq_nil_iff.mp hb
    subst this
    simp
  | cons pi t ih =>
    intro a b hb hn
    obtain ⟨p, i⟩ := pi
    cases b with
    | nil => simp at hb
    | cons br tb =>
      obtain ⟨bp, br₀⟩ := br
      rw [List.map_cons, List.map_cons] at hb
      have hbp : bp = p := by
        simpa using congrArg (fun x => x.headD "") hb
      subst hbp
      have htb : tb.map Prod.fst = t.map Prod.fst := by
        simpa using congrArg List.tail hb
      have hn' : ((a ++ (bp, br₀) :: tb).map Prod.fst).Nodup := hn
      rw [List.map_append, List.map_cons] at hn'
      have hp_a : bp ∉ a.map Prod.fst := by
        intro hmem
        rcases (List.nodup_append.mp hn') with ⟨_, _, hdisj⟩
        exact hdisj hmem (List.mem_cons_self _ _)
      have hp_tb : bp ∉ tb.map Prod.fst := by
        rcases (List.nodup_append.mp hn') with ⟨_, hcons, _⟩
        exact (List.nodup_cons.mp hcons).1
      rw [List.foldl_cons,
        upsert_append_cons a tb bp br₀ (recordOfInfo bp i) hp_a hp_tb,
        show a ++ (bp, recordOfInfo bp i) :: tb
            = (a ++ [(bp, recordOfInfo bp i)]) ++ tb by simp,
        ih (a ++ [(bp, recordOfInfo bp i)]) tb htb (by
          rw [List.map_append] at *
          simpa using hn')]
      simp

/-- For a character list containing exactly one `'.'`, the suffix from the
first dot and the (dot-prepended) suffix after the last dot coincide. -/
theorem dropWhile_single_dot (l : List Char) (hmem : '.' ∈ l)
    (hcount : l.count '.' ≤ 1) :
    l.dropWhile (fun c => decide (c ≠ '.')) =
      '.' :: ((l.reverse.takeWhile (fun c => decide (c ≠ '.'))).reverse) := by
  induction l with
  | nil => cases hmem
  | cons c t ih =>
    by_cases hc : c = '.'
    · subst hc
      have ht0 : t.count '.' = 0 := by
        have := List.count_cons_self '.' t
        omega
      have hnot : '.' ∉ t := List.not_mem_of_count_eq_zero ht0
      rw [List.dropWhile_cons_of_neg (by simp), List.reverse_cons,
        List.takeWhile_append_of_pos (by
          intro a ha
          simp only [decide_eq_true_eq]
          intro heq
          exact hnot (heq ▸ List.mem_reverse.mp ha)),
        show List.takeWhile (fun c => decide (c ≠ '.')) ['.'] = [] from rfl]
      simp
    · have hmem₂ : '.' ∈ t := by
        rcases List.mem_cons.mp hmem with h | h
        · exact absurd h.symm hc
        · exact h
      have hcount₂ : t.count '.' ≤ 1 := by
        rw [List.count_cons_of_ne (fun he => hc he.symm)] at hcount
        exact hcount
      have hne : ((t.reverse.takeWhile (fun c => decide (c ≠ '.'))).length ≠
          t.reverse.length) := by
        intro hlen
        have heq : t.reverse.takeWhile (fun c => decide (c ≠ '.')) = t.reverse :=
          (List.takeWhile_prefix _).eq_of_length hlen
        have hin : '.' ∈ t.reverse.takeWhile (fun c => decide (c ≠ '.')) := by
          rw [heq]
          exact List.mem_reverse.mpr hmem₂
        have := List.mem_takeWhile_imp hin
        simp at this
      rw [List.dropWhile_cons_of_pos (by simp [hc]), List.reverse_cons,
        List.takeWhile_append, if_neg hne, ih hmem₂ hcount₂]

/-- On filenames with at most one dot, the SQL grouping key (suffix from the
first dot) agrees with the claim's key (suffix after the last dot, with its
dot). -/
theorem sqlExt_eq_lastDotExt_of_single_dot (f : String)
    (h : f.toList.count '.' ≤ 1) : sqlExt f = lastDotExt f := by
  unfold sqlExt lastDotExt
  by_cases hm : f.toList.contains '.'
  · rw [if_pos hm, if_pos hm]
    have hmem : '.' ∈ f.toList := by
      simpa using hm
    congr 1
    rw [dropWhile_single_dot f.toList hmem h]
    unfold pyLower
    rfl
  · rw [if_neg hm, if_neg hm]

/-- Pointwise equivalence between the source's sequential `continue` checks
and the claim's single rejection disjunction. -/
theorem resultPasses_eq_not_claimRejects (f : QueryFilters Int) (home : String)
    (r : SearchResultR) : resultPasses f home r = !(claimRejects f home r) := by
  obtain ⟨q, ft, df, dt, dir, oq⟩ := f
  obtain ⟨fn, fp, ia⟩ := r
  cases df <;> cases dt <;> cases ia <;>
    rcases dir with _ | d <;>
    by_cases hft : ft = [] <;>
    simp [resultPasses, claimRejects, hft, decide_not]

/-- C6: `apply_filters_to_results` returns the input list unchanged when no
filter is active, and otherwise exactly the input results that are not
rejected by the claim's three checks (extension outside a non-empty file-type
set; parsed `indexed_at` outside the half-open `[date_from, date_to)` with
missing or unparseable timestamps never rejected; filepath not starting with
the home-expanded directory prefix), in their original order — a `filter` of
the input. -/
theorem claim_C6 (results : List SearchResultR) (filters : QueryFilters Int)
    (home : String) :
    apply_filters_to_results results filters home =
      if filters.has_filters then
        results.filter (fun r => !(claimRejects filters home r))
      else results := by
  unfold apply_filters_to_results
  cases hh : filters.has_filters with
  | false => simp [hh]
  | true =>
    simp only [hh, Bool.not_true, Bool.false_eq_true, if_false, if_true]
    exact List.filter_congr (fun r _ => resultPasses_eq_not_claimRejects filters home r)

/-- C1: `needs_indexing` fails closed when the file does not exist; returns
`true` for a file with no manifest row; when a row exists and the stored
modification time differs from the current one, returns `true` exactly when
the freshly computed content hash differs from the stored hash; when the
modification times are equal returns `false` (the hash branch is not even
reachable, as the definition shows); and consequently a file whose bytes
(hence MD5 hash) are unchanged after `mark_indexed` is not re-indexed even if
its modification time was perturbed. -/
theorem claim_C1 (fs fsT : FS) (m : Manifest) (p : String) :
    (fs p = none → needs_indexing fs m p = false) ∧
    (∀ st, fs p = some st → getFile m p = none → needs_indexing fs m p = true) ∧
    (∀ st r, fs p = some st → getFile m p = some r → some st.mtime ≠ r.mtime →
      (needs_indexing fs m p = true ↔ some (compute_file_hash fs p) ≠ r.file_hash)) ∧
    (∀ st r, fs p = some st → getFile m p = some r → some st.mtime = r.mtime →
      needs_indexing fs m p = false) ∧
    (∀ st st₂ k nowIso, fs p = some st → fsT p = some st₂ →
      st₂.contentHash = st.contentHash →
      needs_indexing fsT (mark_indexed fs m p k none nowIso) p = false) := by
  refine ⟨?_, ?_, ?_, ?_, ?_⟩
  · intro h
    simp [needs_indexing, h]
  · intro st h hget
    simp [needs_indexing, h, hget]
  · intro st r h hget hmt
    simp only [needs_indexing, h, hget, if_pos hmt]
    exact decide_eq_true_iff
  · intro st r h hget hmt
    have hn : ¬ (some st.mtime ≠ r.mtime) := by simp [hmt]
    simp [needs_indexing, h, hget, hn]
  · intro st st₂ k nowIso h hT hhash
    have hm : mark_indexed fs m p k none nowIso =
        upsert m p
          { filename := pathName p, file_hash := some st.contentHash,
            mtime := some st.mtime, size := some st.size,
            indexed_at := some nowIso, chunk_count := some k } := by
      simp [mark_indexed, h, compute_file_hash]
    rw [hm]
    have hget := getFile_upsert_self m p
      { filename := pathName p, file_hash := some st.contentHash,
        mtime := some st.mtime, size := some st.size,
        indexed_at := some nowIso, chunk_count := some k }
    simp only [needs_indexing, hT, hget, compute_file_hash, hhash]
    by_cases hmt : (some st₂.mtime ≠ some st.mtime)
    · simp [hmt]
    · simp [hmt]

/-- C1 witness: a concrete file indexed at mtime 100 and touched to mtime 200
with unchanged bytes is not re-indexed. -/
theorem claim_C1_witness :
    needs_indexing
      (fun q => if q = "/d/f.txt" then some ⟨200, 5, "h1"⟩ else none)
      (mark_indexed
        (fun q => if q = "/d/f.txt" then some ⟨100, 5, "h1"⟩ else none)
        [] "/d/f.txt" 3 none "t0")
      "/d/f.txt" = false :=
  (claim_C1 (fun q => if q = "/d/f.txt" then some ⟨100, 5, "h1"⟩ else none)
    (fun q => if q = "/d/f.txt" then some ⟨200, 5, "h1"⟩ else none)
    [] "/d/f.txt").2.2.2.2 ⟨100, 5, "h1"⟩ ⟨200, 5, "h1"⟩ 3 "t0"
    (by simp) (by simp) rfl

set_option maxHeartbeats 1000000 in
/-- C7: `parse_query "PDFs from last week"` yields filters whose `file_types`
contains `".pdf"` (it is exactly `[".pdf"]`), whose `date_from` is set to one
week before the current instant (`now - timedelta(weeks=1)`, the symbolic
`nowMinusWeeks 1`) with no `date_to`, and whose residual query is the empty
string.  The current year (`2026`) only feeds the month-name branch, which
this query does not take. -/
theorem claim_C7 :
    (parse_query 2026 "PDFs from last week").file_types = [".pdf"] ∧
    (parse_query 2026 "PDFs from last week").date_from = some (.nowMinusWeeks 1) ∧
    (parse_query 2026 "PDFs from last week").date_to = none ∧
    (parse_query 2026 "PDFs from last week").query = "" :=
  ⟨rfl, rfl, rfl, rfl⟩

set_option maxHeartbeats 1000000 in
/-- C2: evaluating `parse_query` at the failing input
`"salary in my documents"`.  The directory filter is extracted as claimed,
but the residual query is `"salary in my"`, not `"salary"`: the file-type
pattern `\bdocument(?:s)?\b` strips only the word `"documents"` from the
query, after which the directory phrase `"in my documents"` no longer matches
the mutated text and `"in my"` is left behind — contradicting the claim and
the function's own docstring. -/
theorem claim_C2_failing_eval :
    (parse_query 2026 "salary in my documents").query = "salary in my" ∧
    (parse_query 2026 "salary in my documents").directory = some "~/Documents" :=
  ⟨rfl, rfl⟩

/-- C3 counterexample: a manifest with the single file `a.tar.gz` is counted
under `".tar.gz"` (the suffix from the FIRST dot,
`SUBSTR(filename, INSTR(filename, '.'))`), not under `".gz"` as the claim
states. -/
theorem claim_C3_counterexample :
    get_extension_counts [("/d/a.tar.gz", { filename := "a.tar.gz" })] ".gz" = 0 ∧
    get_extension_counts [("/d/a.tar.gz", { filename := "a.tar.gz" })] ".tar.gz" = 1 := by
  exact ⟨rfl, rfl⟩

/-- C3 (amended): `get_extension_counts` groups each file by the lower-cased
suffix starting at the FIRST `'.'` of its filename (`sqlExt`); on manifests
whose filenames contain at most one dot this coincides with the claim's
last-`'.'`-delimited grouping (`lastDotExt`), case-insensitively, with
dot-free filenames excluded. -/
theorem claim_C3 (m : Manifest) (e : String)
    (h : ∀ pr ∈ m, pr.2.filename.toList.count '.' ≤ 1) :
    get_extension_counts m e =
      (m.filter (fun pr => lastDotExt pr.2.filename = some e)).length := by
  unfold get_extension_counts
  congr 1
  apply List.filter_congr
  intro pr hpr
  rw [sqlExt_eq_lastDotExt_of_single_dot _ (h pr hpr)]

/-- C3 witness: the amended theorem applied to a concrete single-dot
manifest. -/
theorem claim_C3_witness :
    get_extension_counts
      [("/d/b.txt", { filename := "b.txt" }), ("/d/c.TXT", { filename := "c.TXT" })]
      ".txt" =
    (List.filter (fun pr : String × FileRecord => lastDotExt pr.2.filename = some ".txt")
      [("/d/b.txt", { filename := "b.txt" }), ("/d/c.TXT", { filename := "c.TXT" })]).length :=
  claim_C3 _ ".txt" (by decide)

/-- C4 counterexample: with no cached client and no `OPENAI_API_KEY`,
`extract_answer_from_chunk` raises `RuntimeError` to its caller instead of
returning `{"answer": "NONE", "confidence": 0.0}` — `get_client()` runs
before the protecting `try:` block. -/
theorem claim_C4_counterexample :
    extract_answer_from_chunk false false (.parsed "x" (1/2)) =
      .error "OPENAI_API_KEY not found in .env" :=
  rfl

/-- C4 (amended): whenever a client is obtainable (one is already cached or
the API key is present), `extract_answer_from_chunk` returns a
`{answer, confidence}` result with `confidence ∈ [0,1]` for every collaborator
outcome, and any failure inside the call (API error, non-JSON output) is
absorbed into `{"answer": "NONE", "confidence": 0.0}` instead of raising. -/
theorem claim_C4 (clientCached keyPresent : Bool) (o : LLMOutcome)
    (h : clientCached || keyPresent = true) :
    ∃ r, extract_answer_from_chunk clientCached keyPresent o = .ok r ∧
      0 ≤ r.confidence ∧ r.confidence ≤ 1 ∧
      ((o = .apiError ∨ o = .badJson) → r = ⟨"NONE", 0⟩) := by
  have hg : (!clientCached && !keyPresent) = false := by
    cases clientCached <;> cases keyPresent <;> simp_all
  cases o with
  | apiError =>
    exact ⟨⟨"NONE", 0⟩, by simp [extract_answer_from_chunk, hg], le_refl 0,
      zero_le_one, fun _ => rfl⟩
  | badJson =>
    exact ⟨⟨"NONE", 0⟩, by simp [extract_answer_from_chunk, hg], le_refl 0,
      zero_le_one, fun _ => rfl⟩
  | parsed a c =>
    by_cases ha : a = "" || pyUpper a = "NONE"
    · exact ⟨⟨"NONE", 0⟩, by simp [extract_answer_from_chunk, hg, ha], le_refl 0,
        zero_le_one, fun hx => by cases hx <;> simp_all⟩
    · refine ⟨⟨a, min (max c 0) 1⟩, by simp [extract_answer_from_chunk, hg, ha],
        le_min (le_max_right c 0) zero_le_one, min_le_right _ _,
        fun hx => by cases hx <;> simp_all⟩

/-- C4 witness: the amended theorem applied at a concrete obtainable-client
configuration. -/
theorem claim_C4_witness :
    ∃ r, extract_answer_from_chunk true false (.parsed "ok" 2) = .ok r ∧
      0 ≤ r.confidence ∧ r.confidence ≤ 1 ∧
      ((LLMOutcome.parsed "ok" 2 = .apiError ∨ LLMOutcome.parsed "ok" 2 = .badJson) →
        r = ⟨"NONE", 0⟩) :=
  claim_C4 true false (.parsed "ok" 2) rfl

/-- Length of the trailing-punctuation normalization: one word for an empty
list, otherwise the word count is preserved. -/
theorem normalizeEnd_length (l : List String) :
    (normalizeEnd l).length = max l.length 1 := by
  induction l with
  | nil => rfl
  | cons w t ih =>
    cases t with
    | nil => rfl
    | cons x xs =>
      have : normalizeEnd (w :: x :: xs) = w :: normalizeEnd (x :: xs) := rfl
      rw [this]
      simp only [List.length_cons] at *
      omega

/-- C5: answers at or under the word budget pass through
`compress_answer_if_needed` unchanged; over-budget answers whose collaborator
is unavailable (`none`) or produced output that is not actually shorter are
deterministically truncated to the budget's number of words with trailing
punctuation normalized to a single period, so the result has at most
`maxWords + 1` words (e.g. at most 11 for a 10-word budget). -/
theorem claim_C5 (ws : List String) (n : Nat) (c : Option (List String)) :
    (ws.length ≤ n → compress_answer_if_needed ws n c = ws) ∧
    (n < ws.length → (∀ cc, c = some cc → ws.length ≤ cc.length) →
      compress_answer_if_needed ws n c = normalizeEnd (ws.take n) ∧
      (compress_answer_if_needed ws n c).length ≤ n + 1) := by
  constructor
  · intro h
    simp [compress_answer_if_needed, h]
  · intro h hc
    have hnot : ¬ ws.length ≤ n := not_le.mpr h
    have heq : compress_answer_if_needed ws n c = normalizeEnd (ws.take n) := by
      cases c with
      | none => simp [compress_answer_if_needed, hnot]
      | some cc =>
        have := hc cc rfl
        simp [compress_answer_if_needed, hnot, not_lt.mpr this]
    refine ⟨heq, ?_⟩
    rw [heq, normalizeEnd_length]
    have : (ws.take n).length ≤ n := by
      simp [List.length_take]
    omega

/-- C5 witness: a 50-word answer with a 10-word budget and no collaborator is
truncated to at most 11 words. -/
theorem claim_C5_witness :
    10 < (List.replicate 50 "word").length ∧
    (compress_answer_if_needed (List.replicate 50 "word") 10 none).length ≤ 11 :=
  ⟨by decide,
    ((claim_C5 (List.replicate 50 "word") 10 none).2 (by decide)
      (fun _ h => by cases h)).2⟩

/-- C8: importing the structure produced by export (with the manifest's keys
unique, as the `filepath` primary key guarantees) returns the number of file
entries, preserves the key set, preserves every row's five interchange fields
(hash, mtime, size, indexed_at, chunk_count), and importing the same data a
second time leaves the manifest exactly as after the first import (idempotent
upsert keyed by path). -/
theorem claim_C8 (m : Manifest) (ls ls₂ ls₃ : Option String)
    (hm : (m.map Prod.fst).Nodup) :
    (manifest_import_from_json m ls₂ (export_to_json m ls)).2.2 = m.length ∧
    (∀ p, (getFile (manifest_import_from_json m ls₂ (export_to_json m ls)).1 p).map
        recordFields = (getFile m p).map recordFields) ∧
    (manifest_import_from_json m ls₂ (export_to_json m ls)).1.map Prod.fst
      = m.map Prod.fst ∧
    (manifest_import_from_json
        (manifest_import_from_json m ls₂ (export_to_json m ls)).1 ls₃
        (export_to_json m ls)).1
      = (manifest_import_from_json m ls₂ (export_to_json m ls)).1 := by
  have hkeys : ∀ (h : String × FileRecord → FileRecord),
      (m.map (fun pr => (pr.1, h pr))).map Prod.fst = m.map Prod.fst := by
    intro h
    rw [List.map_map]
    rfl
  have hexp : (export_to_json m ls).files =
      m.map (fun pr => (pr.1,
        ({ hash := pr.2.file_hash, mtime := pr.2.mtime, size := pr.2.size,
           indexed_at := pr.2.indexed_at,
           chunk_count := pr.2.chunk_count } : ExportInfo))) := rfl
  have hlkeys : (m.map (fun pr => (pr.1,
      ({ hash := pr.2.file_hash, mtime := pr.2.mtime, size := pr.2.size,
         indexed_at := pr.2.indexed_at,
         chunk_count := pr.2.chunk_count } : ExportInfo)))).map Prod.fst
      = m.map Prod.fst := by
    rw [List.map_map]
    rfl
  have himp : (manifest_import_from_json m ls₂ (export_to_json m ls)).1 =
      m.map (fun pr => (pr.1,
        { filename := pathName pr.1, file_hash := pr.2.file_hash,
          mtime := pr.2.mtime, size := pr.2.size,
          indexed_at := pr.2.indexed_at,
          chunk_count := pr.2.chunk_count })) := by
    show (export_to_json m ls).files.foldl
        (fun acc pr => upsert acc pr.1 (recordOfInfo pr.1 pr.2)) m = _
    rw [hexp]
    have := foldl_upsert_aligned
      (m.map (fun pr => (pr.1,
        ({ hash := pr.2.file_hash, mtime := pr.2.mtime, size := pr.2.size,
           indexed_at := pr.2.indexed_at,
           chunk_count := pr.2.chunk_count } : ExportInfo))))
      [] m hlkeys.symm (by simpa using hm)
    rw [List.nil_append] at this
    rw [this, List.map_map]
    rfl
  refine ⟨?_, ?_, ?_, ?_⟩
  · show (export_to_json m ls).files.length = m.length
    rw [hexp, List.length_map]
  · intro p
    rw [himp]
    unfold getFile
    rw [find?_map_keyed m
      (fun pr => (pr.1,
        { filename := pathName pr.1, file_hash := pr.2.file_hash,
          mtime := pr.2.mtime, size := pr.2.size,
          indexed_at := pr.2.indexed_at,
          chunk_count := pr.2.chunk_count }))
      (fun pr => rfl) p]
    cases m.find? (fun x => decide (x.1 = p)) <;> rfl
  · rw [himp, hkeys]
  · rw [himp]
    show (export_to_json m ls).files.foldl
        (fun acc pr => upsert acc pr.1 (recordOfInfo pr.1 pr.2))
        (m.map _) = _
    rw [hexp]
    have := foldl_upsert_aligned
      (m.map (fun pr => (pr.1,
        ({ hash := pr.2.file_hash, mtime := pr.2.mtime, size := pr.2.size,
           indexed_at := pr.2.indexed_at,
           chunk_count := pr.2.chunk_count } : ExportInfo))))
      []
      (m.map (fun pr => (pr.1,
        { filename := pathName pr.1, file_hash := pr.2.file_hash,
          mtime := pr.2.mtime, size := pr.2.size,
          indexed_at := pr.2.indexed_at,
          chunk_count := pr.2.chunk_count })))
      (by rw [hkeys, hlkeys]) (by simpa [hkeys] using hm)
    rw [List.nil_append] at this
    rw [this, List.map_map]
    rfl

/-- C8 witness: the theorem applied to a concrete two-row manifest. -/
theorem claim_C8_witness :
    (manifest_import_from_json
      [("/d/a.txt", { filename := "a.txt", chunk_count := some 2 }),
       ("/d/b.md", { filename := "b.md" })]
      none
      (export_to_json
        [("/d/a.txt", { filename := "a.txt", chunk_count := some 2 }),
         ("/d/b.md", { filename := "b.md" })] (some "s"))).2.2 = 2 :=
  (claim_C8
    [("/d/a.txt", { filename := "a.txt", chunk_count := some 2 }),
     ("/d/b.md", { filename := "b.md" })]
    (some "s") none none (by decide)).1

/-- C9: `FAISSVectorStore.add` with mismatched lengths or any wrong-dimension
vector fails (raises) and leaves the store unchanged; a valid call succeeds
and appends to both the index and the metadata list, growing each by exactly
the number of vectors added and preserving positional correspondence. -/
theorem claim_C9 {α : Type} (s : FAISSVectorStore α) (vs : List (List Rat))
    (md : List α) :
    ((vs.length ≠ md.length ∨ ∃ v ∈ vs, v.length ≠ s.dim) →
      (s.add vs md).1 = s ∧ (s.add vs md).2.isSome) ∧
    (vs.length = md.length → (∀ v ∈ vs, v.length = s.dim) →
      (s.add vs md).2 = none ∧
      (s.add vs md).1.vectors = s.vectors ++ vs ∧
      (s.add vs md).1.metadata = s.metadata ++ md ∧
      (s.add vs md).1.vectors.length = s.vectors.length + vs.length ∧
      (s.add vs md).1.metadata.length = s.metadata.length + md.length) := by
  constructor
  · intro h
    by_cases hl : vs.length = md.length
    · have hv : ∃ v ∈ vs, v.length ≠ s.dim := by
        rcases h with h | hv
        · exact absurd hl h
        · exact hv
      simp [FAISSVectorStore.add, hl, hv]
    · simp [FAISSVectorStore.add, hl]
  · intro hl hd
    have hv : ¬ ∃ v ∈ vs, v.length ≠ s.dim := by
      push_neg
      exact hd
    simp [FAISSVectorStore.add, hl, hv]

/-- C9 witness: a length-mismatched call on a concrete store is rejected with
the store unchanged. -/
theorem claim_C9_witness :
    (FAISSVectorStore.add ⟨2, [], ([] : List Nat)⟩ [[1, 2]] []).1 = ⟨2, [], []⟩ ∧
    (FAISSVectorStore.add ⟨2, [], ([] : List Nat)⟩ [[1, 2]] []).2.isSome :=
  (claim_C9 ⟨2, [], []⟩ [[1, 2]] []).1 (Or.inl (by decide))

/-- C10: when `stat` fails with `OSError` (the path is absent from the
filesystem), `mark_indexed` returns normally and the manifest is completely
unchanged — no row is inserted, updated, or deleted. -/
theorem claim_C10 (fs : FS) (m : Manifest) (p : String) (k : Int)
    (h : Option String) (nowIso : String) (hfs : fs p = none) :
    mark_indexed fs m p k h nowIso = m := by
  simp [mark_indexed, hfs]

/-- C10 witness: a concrete vanished file leaves a concrete manifest as it
was. -/
theorem claim_C10_witness :
    mark_indexed (fun _ => none)
      [("/d/a.txt", { filename := "a.txt" })] "/d/b.txt" 3 none "t" =
      [("/d/a.txt", { filename := "a.txt" })] :=
  claim_C10 (fun _ => none) [("/d/a.txt", { filename := "a.txt" })]
    "/d/b.txt" 3 none "t" rfl

end RAGSpotlight
